import Mathlib

/-!
Shallow embedding of the personalized bulk-messaging engine of
`src/services/WhatsAppService.ts` (template rendering, validation, job
creation and the sequential dispatch loop), together with theorems about
the specified properties.
-/

namespace WhatsAppService

/-- A JavaScript runtime value, as far as the engine inspects one. -/
inductive JSValue where
  | undefined
  | null
  | bool (b : Bool)
  | num (n : Int)
  | str (s : String)
  deriving DecidableEq

/-- JavaScript `String(v)` conversion for the modelled values. -/
def JSValue.jsString : JSValue → String
  | .undefined => "undefined"
  | .null => "null"
  | .bool true => "true"
  | .bool false => "false"
  | .num n => toString n
  | .str s => s

/-- JavaScript truthiness of a value (`!v` is the negation of this). -/
def JSValue.truthy : JSValue → Bool
  | .undefined => false
  | .null => false
  | .bool b => b
  | .num n => n != 0
  | .str s => s != ""

/-- A JavaScript object, as an association list of string keys. -/
abbrev JSRecord := List (String × JSValue)

/-- Property access `r[k]`: the stored value, or `undefined` when absent. -/
def jsGet (r : JSRecord) (k : String) : JSValue :=
  match r.find? (fun p => p.1 == k) with
  | some p => p.2
  | none => .undefined

/-- The JavaScript `in` operator: key presence, regardless of the value. -/
def hasKey (r : JSRecord) (k : String) : Bool :=
  (r.find? (fun p => p.1 == k)).isSome

/-- One element of the request's `data` array: a keyed object, or a
primitive value (which `validatePersonalizedData` rejects as not an
object). -/
inductive DataItem where
  | obj (r : JSRecord)
  | prim (v : JSValue)
  deriving DecidableEq

/-- The keyed fields of a data item (a primitive has none). -/
def DataItem.fields : DataItem → JSRecord
  | .obj r => r
  | .prim _ => []

/-- `item[k]` for a data item. -/
def itemGet (it : DataItem) (k : String) : JSValue := jsGet it.fields k

/-! ### The placeholder regex `/\{\{(\w+)\}\}/g`

`scan` decomposes a character list into literal characters and `(\w+)`
tokens wrapped in double braces, exactly as the global regex does:
leftmost match first, continuing after each match. -/

/-- The regex word class `\w`: ASCII letters, digits and underscore. -/
def isWordChar (c : Char) : Bool := c.isAlphanum || c == '_'

/-- Try to match the placeholder regex at the head of the character list:
two opening braces, one or more word characters, two closing braces.
Returns the token name and the characters after the match. -/
def parseToken (l : List Char) : Option (String × List Char) :=
  match l with
  | c1 :: c2 :: rest =>
    if c1 = '\x7b' ∧ c2 = '\x7b' then
      match rest.takeWhile isWordChar, rest.dropWhile isWordChar with
      | [], _ => none
      | name, d1 :: d2 :: rest2 =>
        if d1 = '\x7d' ∧ d2 = '\x7d' then some (String.mk name, rest2) else none
      | _, _ => none
    else none
  | _ => none

theorem parseToken_rest_lt {l rest : List Char} {name : String}
    (h : parseToken l = some (name, rest)) : rest.length < l.length := by
  match l with
  | [] => simp [parseToken] at h
  | [c] => simp [parseToken] at h
  | c1 :: c2 :: r =>
    simp only [parseToken] at h
    split at h
    · split at h
      · exact absurd h (by simp)
      · rename_i name0 d1 d2 rest2 heq1 heq2
        split at h
        · have hlen : (r.dropWhile isWordChar).length ≤ r.length :=
            (r.dropWhile_sublist isWordChar).length_le
          rw [heq1] at hlen
          simp only [Option.some.injEq, Prod.mk.injEq] at h
          rw [← h.2]
          simp only [List.length_cons] at hlen ⊢
          omega
        · exact absurd h (by simp)
      · exact absurd h (by simp)
    · exact absurd h (by simp)

/-- A piece of a scanned template: a literal character, or a `(\w+)`
token found inside double braces. -/
inductive Piece where
  | lit (c : Char)
  | tok (name : String)
  deriving DecidableEq

/-- Fuel-driven scanner; fuel at least the list length is enough, since
every step consumes at least one character. -/
def scanAux : Nat → List Char → List Piece
  | 0, _ => []
  | _, [] => []
  | fuel + 1, c :: cs =>
    match parseToken (c :: cs) with
    | some (name, rest) => .tok name :: scanAux fuel rest
    | none => .lit c :: scanAux fuel cs

theorem scanAux_fuel : ∀ (n : Nat) (l : List Char) (f1 f2 : Nat),
    l.length ≤ n → l.length ≤ f1 → l.length ≤ f2 →
    scanAux f1 l = scanAux f2 l := by
  intro n
  induction n with
  | zero =>
    intro l f1 f2 hn _ _
    match l with
    | [] => cases f1 <;> cases f2 <;> rfl
    | c :: cs => simp at hn
  | succ n ih =>
    intro l f1 f2 hn h1 h2
    match l with
    | [] => cases f1 <;> cases f2 <;> rfl
    | c :: cs =>
      match f1, f2 with
      | f1 + 1, f2 + 1 =>
        cases hp : parseToken (c :: cs) with
        | none =>
          have := ih cs f1 f2 (by simp at hn; omega) (by simp at h1; omega)
            (by simp at h2; omega)
          simp only [scanAux, hp, this]
        | some pr =>
          obtain ⟨name, rest⟩ := pr
          have hlt := parseToken_rest_lt hp
          simp only [List.length_cons] at hlt hn h1 h2
          have := ih rest f1 f2 (by omega) (by omega) (by omega)
          simp only [scanAux, hp, this]

/-- Decompose a template into literal characters and placeholder tokens,
exactly as the global regex scans it. -/
def scan (l : List Char) : List Piece := scanAux l.length l

theorem scan_eq_scanAux {l : List Char} {f : Nat} (h : l.length ≤ f) :
    scan l = scanAux f l :=
  scanAux_fuel l.length l l.length f le_rfl le_rfl h

theorem scan_nil : scan [] = [] := rfl

theorem scan_cons_tok {c : Char} {cs rest : List Char} {name : String}
    (h : parseToken (c :: cs) = some (name, rest)) :
    scan (c :: cs) = .tok name :: scan rest := by
  have hlt := parseToken_rest_lt h
  simp only [List.length_cons] at hlt
  unfold scan
  simp only [List.length_cons, scanAux, h]
  exact congrArg _ (scanAux_fuel rest.length rest cs.length rest.length le_rfl
    (by omega) le_rfl)

theorem scan_cons_lit {c : Char} {cs : List Char}
    (h : parseToken (c :: cs) = none) :
    scan (c :: cs) = .lit c :: scan cs := by
  unfold scan
  simp only [List.length_cons, scanAux, h]

/-- Induction principle following the scanner's decomposition. -/
theorem scan_induction (P : List Char → Prop)
    (hnil : P [])
    (htok : ∀ c cs name rest, parseToken (c :: cs) = some (name, rest) →
      P rest → P (c :: cs))
    (hlit : ∀ c cs, parseToken (c :: cs) = none → P cs → P (c :: cs)) :
    ∀ l, P l := by
  have key : ∀ (n : Nat) (l : List Char), l.length ≤ n → P l := by
    intro n
    induction n with
    | zero =>
      intro l h
      match l with
      | [] => exact hnil
      | c :: cs => simp at h
    | succ n ih =>
      intro l h
      match l with
      | [] => exact hnil
      | c :: cs =>
        cases hp : parseToken (c :: cs) with
        | none =>
          refine hlit c cs hp (ih cs ?_)
          simp only [List.length_cons] at h; omega
        | some pr =>
          obtain ⟨name, rest⟩ := pr
          have hlt := parseToken_rest_lt hp
          simp only [List.length_cons] at h hlt
          exact htok c cs name rest hp (ih rest (by omega))
  exact fun l => key l.length l le_rfl

deriving instance DecidableEq for Except

/-! ### Template engine: `replacePlaceholders` -/

/-- The error message thrown by `replacePlaceholders` for a placeholder
whose looked-up value is `undefined`. -/
def placeholderErrMsg (name : String) : String :=
  "Placeholder \x7b\x7b" ++ name ++ "\x7d\x7d not found in data object"

/-- Left-to-right replacement over the scanned pieces: the regex-replace
callback reads `data[name]`, throws when it is `undefined`, and otherwise
substitutes `String(value)`. -/
def replaceScan (data : JSRecord) : List Piece → Except String (List Char)
  | [] => .ok []
  | .lit c :: rest =>
    match replaceScan data rest with
    | .error e => .error e
    | .ok out => .ok (c :: out)
  | .tok name :: rest =>
    match jsGet data name with
    | .undefined => .error (placeholderErrMsg name)
    | v =>
      match replaceScan data rest with
      | .error e => .error e
      | .ok out => .ok ((JSValue.jsString v).data ++ out)

/-- `replacePlaceholders(message, data)`: `message.replace` over the
placeholder regex, with the callback throwing on an `undefined` value
(modelled as `Except.error` carrying the thrown message). -/
def replacePlaceholders (message : String) (data : JSRecord) :
    Except String String :=
  match replaceScan data (scan message.data) with
  | .error e => .error e
  | .ok out => .ok (String.mk out)

/-- Modelled from the spec: the total rendering the specification
describes, substituting `String(record[Name])` for every token occurrence
and leaving every other character unchanged (used to compare
`replacePlaceholders` against the spec's wording). -/
def renderScan (data : JSRecord) : List Piece → List Char
  | [] => []
  | .lit c :: rest => c :: renderScan data rest
  | .tok name :: rest =>
    (JSValue.jsString (jsGet data name)).data ++ renderScan data rest

/-- Modelled from the spec: `render(template, record)` as the spec words
it, on templates whose every token resolves to a defined value. -/
def renderSpec (message : String) (data : JSRecord) : String :=
  String.mk (renderScan data (scan message.data))

/-! ### Validator: `validatePersonalizedData` -/

/-- The validation failure taxonomy, in bijection with the four `throw`
sites of `validatePersonalizedData`. -/
inductive ValidationError where
  | emptyData
  | invalidItem (i : Nat)
  | missingPhone (i : Nat)
  | missingPlaceholder (name : String) (i : Nat)
  deriving DecidableEq

/-- The message of the thrown `Error`, per throw site. -/
def ValidationError.message : ValidationError → String
  | .emptyData => "Data array is required and must not be empty"
  | .invalidItem i => "Data item at index " ++ toString i ++ " must be an object"
  | .missingPhone i =>
    "Phone field is missing in data item at index " ++ toString i
  | .missingPlaceholder name i =>
    "Placeholder \x7b\x7b" ++ name ++ "\x7d\x7d not found in data item at index "
      ++ toString i

/-- The token names of a template, in occurrence order, duplicates kept
(the per-match capture of the regex `exec` loop). -/
def tokenNames (message : String) : List String :=
  (scan message.data).filterMap fun p =>
    match p with
    | .lit _ => none
    | .tok name => some name

/-- `Set.add` on an insertion-ordered set of names. -/
def insertName (seen : List String) (name : String) : List String :=
  if name ∈ seen then seen else seen ++ [name]

/-- The `placeholders` set of the validator: distinct token names in
first-occurrence (insertion) order. -/
def extractPlaceholders (message : String) : List String :=
  (tokenNames message).foldl insertName []

/-- What the validator's `forEach` body finds wrong with one record,
independent of its index. -/
inductive ItemIssue where
  | notObject
  | noPhone
  | missingName (name : String)
  deriving DecidableEq

/-- The per-record checks of the validator's `forEach` body, in source
order: not-an-object, then missing/empty (falsy) `Phone`, then the first
placeholder (in set insertion order) that is not a key of the record. -/
def itemIssue (phs : List String) (it : DataItem) : Option ItemIssue :=
  match it with
  | .prim _ => some .notObject
  | .obj r =>
    if (jsGet r "Phone").truthy = false then some .noPhone
    else
      match phs.find? (fun name => hasKey r name = false) with
      | some name => some (.missingName name)
      | none => none

/-- The error the `forEach` body throws for the record at index `i`. -/
def checkItem (phs : List String) (it : DataItem) (i : Nat) :
    Option ValidationError :=
  (itemIssue phs it).map fun issue =>
    match issue with
    | .notObject => .invalidItem i
    | .noPhone => .missingPhone i
    | .missingName name => .missingPlaceholder name i

/-- The validator's `forEach` over the data items, failing at the first
record whose checks fail. -/
def validateItems (phs : List String) : List DataItem → Nat →
    Except ValidationError Unit
  | [], _ => .ok ()
  | it :: rest, i =>
    match checkItem phs it i with
    | some e => .error e
    | none => validateItems phs rest (i + 1)

/-- `validatePersonalizedData(data, message)`: empty-data guard, then the
per-record checks in index order. -/
def validatePersonalizedData (data : List DataItem) (message : String) :
    Except ValidationError Unit :=
  if data.isEmpty then .error .emptyData
  else validateItems (extractPlaceholders message) data 0

/-! ### Job registry data model -/

/-- JavaScript `Math.round`: round half toward positive infinity. -/
def jsRound (q : ℚ) : ℤ := ⌊q + 1 / 2⌋

/-- `Math.round(((sent + failed) / total) * 100)`, as the dispatch loop
computes the percentage after each append. -/
def pct (sent failed total : ℕ) : ℤ :=
  jsRound (((sent : ℚ) + (failed : ℚ)) / (total : ℚ) * 100)

/-- The response of `sendTextMessage` (it catches internally and always
resolves to a `{success, messageId?, error?}` object). -/
structure SendResp where
  success : Bool
  messageId : Option String
  error : Option String
  deriving DecidableEq

/-- One element of a job's `results` array. -/
structure ResultEntry where
  number : JSValue
  success : Bool
  messageId : Option String
  error : Option String
  sentAt : ℤ
  personalizedMessage : String
  deriving DecidableEq

/-- The job `status` string values. -/
inductive JobState where
  | pending
  | running
  | completed
  | failed
  deriving DecidableEq

/-- The `progress` object of a job. -/
structure Progress where
  sent : ℕ
  failed : ℕ
  total : ℕ
  percentage : ℤ
  deriving DecidableEq

/-- A `BulkMessageStatus` record of the job registry; times are
milliseconds since the epoch. -/
structure BulkMessageStatus where
  jobId : String
  status : JobState
  progress : Progress
  results : List ResultEntry
  startedAt : ℤ
  completedAt : Option ℤ
  estimatedCompletion : ℤ
  deriving DecidableEq

/-- A `delayRange` object (seconds). -/
structure DelayRange where
  min : ℤ
  max : ℤ
  deriving DecidableEq

/-- `Math.ceil(totalNumbers * avgDelay)` with
`avgDelay = (min + max) / 2`, in seconds. -/
def estDuration (total : ℕ) (dr : DelayRange) : ℤ :=
  ⌈(total : ℚ) * (((dr.min : ℚ) + (dr.max : ℚ)) / 2)⌉

/-- The job record inserted at submission time: `pending`, zeroed
counters, empty results, `estimatedCompletion = now + duration * 1000`. -/
def createdJob (jobId : String) (total : ℕ) (now duration : ℤ) :
    BulkMessageStatus :=
  { jobId := jobId
    status := .pending
    progress := { sent := 0, failed := 0, total := total, percentage := 0 }
    results := []
    startedAt := now
    completedAt := none
    estimatedCompletion := now + duration * 1000 }

/-! ### Dispatch loop: `processPersonalizedBulkMessages` -/

/-- The result entry one loop iteration pushes for a data item, given the
response of `sendTextMessage`: the `try` path on successful rendering,
the `catch` path when rendering throws. -/
def entryFor (message : String) (it : DataItem) (resp : SendResp) (t : ℤ) :
    ResultEntry :=
  match replacePlaceholders message it.fields with
  | .error e =>
    { number := itemGet it "Phone"
      success := false
      messageId := none
      error := some e
      sentAt := t
      personalizedMessage := "Error occurred during placeholder replacement" }
  | .ok pm =>
    { number := itemGet it "Phone"
      success := resp.success
      messageId := resp.messageId
      error := resp.error
      sentAt := t
      personalizedMessage := pm }

/-- One loop iteration's mutation of the job record: push the result,
bump `sent` or `failed`, recompute `percentage`. -/
def stepJob (message : String) (it : DataItem) (resp : SendResp) (t : ℤ)
    (st : BulkMessageStatus) : BulkMessageStatus :=
  let e := entryFor message it resp t
  let sent2 := if e.success then st.progress.sent + 1 else st.progress.sent
  let failed2 := if e.success then st.progress.failed else st.progress.failed + 1
  { st with
    results := st.results ++ [e]
    progress :=
      { st.progress with
        sent := sent2
        failed := failed2
        percentage := pct sent2 failed2 st.progress.total } }

/-- The loop over the data items, starting at index `i`; `resp` gives
each index's `sendTextMessage` response and `times` each iteration's
clock reading. -/
def runRecords (message : String) (resp : ℕ → SendResp) (times : ℕ → ℤ) :
    List DataItem → ℕ → BulkMessageStatus → BulkMessageStatus
  | [], _, st => st
  | it :: rest, i, st =>
    runRecords message resp times rest (i + 1)
      (stepJob message it (resp i) (times i) st)

/-- Every job state a reader can observe during the loop: the state
before the first append and after each append. -/
def runStates (message : String) (resp : ℕ → SendResp) (times : ℕ → ℤ) :
    List DataItem → ℕ → BulkMessageStatus → List BulkMessageStatus
  | [], _, st => [st]
  | it :: rest, i, st =>
    st :: runStates message resp times rest (i + 1)
      (stepJob message it (resp i) (times i) st)

/-- `jobStatus.status = 'running'` before the loop starts. -/
def setRunning (st : BulkMessageStatus) : BulkMessageStatus :=
  { st with status := .running }

/-- After the loop: `status = 'completed'`, `completedAt` assigned. -/
def finishJob (t : ℤ) (st : BulkMessageStatus) : BulkMessageStatus :=
  { st with status := .completed, completedAt := some t }

/-- The whole dispatch task over a created job record. -/
def processPersonalizedBulkMessages (message : String)
    (data : List DataItem) (resp : ℕ → SendResp) (times : ℕ → ℤ)
    (tEnd : ℤ) (created : BulkMessageStatus) : BulkMessageStatus :=
  finishJob tEnd (runRecords message resp times data 0 (setRunning created))

/-- Every observable snapshot of a job over its lifetime: creation,
start of the loop and each append, and completion. -/
def personalizedJobTrace (message : String) (data : List DataItem)
    (resp : ℕ → SendResp) (times : ℕ → ℤ) (jobId : String)
    (t0 duration tEnd : ℤ) : List BulkMessageStatus :=
  let created := createdJob jobId data.length t0 duration
  created ::
    runStates message resp times data 0 (setRunning created) ++
      [processPersonalizedBulkMessages message data resp times tEnd created]

/-! ### Pacing: `getRandomDelay` and the per-iteration event sequence -/

/-- `Math.floor(Math.random() * (max - min + 1)) + min`, with the
`Math.random()` draw passed in as `r ∈ [0, 1)`. -/
def getRandomDelay (lo hi : ℤ) (r : ℚ) : ℤ :=
  ⌊r * ((hi : ℚ) - (lo : ℚ) + 1)⌋ + lo

/-- Observable actions of one dispatch task, in order. -/
inductive DispatchEvent where
  | appended (i : ℕ)
  | slept (d : ℤ)
  deriving DecidableEq

/-- The events of loop iteration `i` out of `n`: the result append,
followed by an inter-record sleep only when the `try` block ran to its
end (rendering succeeded) and `i` is not the last index; the `catch`
path appends and moves on without sleeping. -/
def iterEvents (message : String) (it : DataItem) (i n : ℕ)
    (dr : DelayRange) (r : ℚ) : List DispatchEvent :=
  match replacePlaceholders message it.fields with
  | .error _ => [.appended i]
  | .ok _ =>
    if i + 1 < n then
      [.appended i, .slept (getRandomDelay dr.min dr.max r)]
    else [.appended i]

/-- The event sequence of a whole dispatch loop over `n` records; `rand`
gives each iteration's `Math.random()` draw. -/
def runEvents (message : String) (dr : DelayRange) (rand : ℕ → ℚ) (n : ℕ) :
    List DataItem → ℕ → List DispatchEvent
  | [], _ => []
  | it :: rest, i =>
    iterEvents message it i n dr (rand i) ++
      runEvents message dr rand n rest (i + 1)

/-! ### Submission: `sendPersonalizedBulkTextMessage` -/

/-- The session status values of `WhatsAppSession`. -/
inductive SessionStatus where
  | initializing
  | qr
  | authenticated
  | ready
  | disconnected
  deriving DecidableEq

/-- A `PersonalizedBulkMessageRequest` body. -/
structure PersonalizedBulkMessageRequest where
  message : String
  data : List DataItem
  delayRange : Option DelayRange

/-- A `BulkMessageResponse`; absent optional fields are `none`. -/
structure BulkMessageResponse where
  success : Bool
  jobId : String
  totalNumbers : ℕ
  message : String
  estimatedDuration : Option ℤ
  error : Option String
  deriving DecidableEq

/-- `this.sessions.get(sessionId)`, keeping only the session status the
submission path inspects. -/
def sessionsGet (sessions : List (String × SessionStatus)) (id : String) :
    Option SessionStatus :=
  (sessions.find? (fun p => p.1 == id)).map (fun p => p.2)

/-- A failure response of the submission path. -/
def failureResponse (msg : String) : BulkMessageResponse :=
  { success := false
    jobId := ""
    totalNumbers := 0
    message := ""
    estimatedDuration := none
    error := some msg }

/-- `sendPersonalizedBulkTextMessage`: session guard, readiness guard,
validation, then job creation. Returns the response together with the
job registry after the call; `freshJobId` is the `uuidv4()` draw and
`now` the clock reading. -/
def sendPersonalizedBulkTextMessage
    (sessions : List (String × SessionStatus))
    (bulkJobs : List (String × BulkMessageStatus))
    (sessionId : String) (req : PersonalizedBulkMessageRequest)
    (freshJobId : String) (now : ℤ) :
    BulkMessageResponse × List (String × BulkMessageStatus) :=
  match sessionsGet sessions sessionId with
  | none => (failureResponse "Session not found", bulkJobs)
  | some stt =>
    if stt ≠ .ready then (failureResponse "Session not ready", bulkJobs)
    else
      match validatePersonalizedData req.data req.message with
      | .error e => (failureResponse e.message, bulkJobs)
      | .ok _ =>
        let dr := req.delayRange.getD { min := 2, max := 9 }
        let total := req.data.length
        let dur := estDuration total dr
        ({ success := true
           jobId := freshJobId
           totalNumbers := total
           message := req.message
           estimatedDuration := some dur
           error := none },
         bulkJobs ++ [(freshJobId, createdJob freshJobId total now dur)])

/-! ### Lemmas about rounding -/

theorem jsRound_zero : jsRound 0 = 0 := by
  norm_num [jsRound]

theorem jsRound_nonneg {q : ℚ} (h : 0 ≤ q) : 0 ≤ jsRound q := by
  unfold jsRound
  exact Int.floor_nonneg.mpr (by linarith)

theorem jsRound_le_100 {q : ℚ} (h : q ≤ 100) : jsRound q ≤ 100 := by
  unfold jsRound
  have : ⌊q + 1 / 2⌋ < 101 := Int.floor_lt.mpr (by push_cast; linarith)
  omega

theorem pct_eq (s f t : ℕ) :
    pct s f t = jsRound (100 * ((s : ℚ) + (f : ℚ)) / (t : ℚ)) :=
  congrArg jsRound (by ring)

/-! ### Lemmas about rendering -/

theorem replaceScan_ok_of_defined {r : JSRecord} :
    ∀ {L : List Piece}, (∀ name, Piece.tok name ∈ L → jsGet r name ≠ .undefined) →
      replaceScan r L = .ok (renderScan r L) := by
  intro L
  induction L with
  | nil => intro _; rfl
  | cons p rest ih =>
    intro h
    cases p with
    | lit c =>
      have := ih (fun name hm => h name (List.mem_cons_of_mem _ hm))
      simp [replaceScan, renderScan, this]
    | tok name =>
      have hv := h name (List.mem_cons_self _ _)
      have := ih (fun name2 hm => h name2 (List.mem_cons_of_mem _ hm))
      cases hg : jsGet r name with
      | undefined => exact absurd hg hv
      | null => simp [replaceScan, renderScan, hg, this]
      | bool b => simp [replaceScan, renderScan, hg, this]
      | num n => simp [replaceScan, renderScan, hg, this]
      | str s => simp [replaceScan, renderScan, hg, this]

theorem replaceScan_ok_defined {r : JSRecord} :
    ∀ {L : List Piece} {out : List Char}, replaceScan r L = .ok out →
      ∀ name, Piece.tok name ∈ L → jsGet r name ≠ .undefined := by
  intro L
  induction L with
  | nil => intro out _ name hm; simp at hm
  | cons p rest ih =>
    intro out hok name hm
    cases p with
    | lit c =>
      rcases List.mem_cons.mp hm with hm1 | hm2
      · exact absurd hm1 (by simp)
      · simp only [replaceScan] at hok
        cases hr : replaceScan r rest with
        | error e => rw [hr] at hok; exact absurd hok (by simp)
        | ok out2 => exact ih hr name hm2
    | tok name2 =>
      cases hg : jsGet r name2 with
      | undefined =>
        simp only [replaceScan, hg] at hok
        exact absurd hok (by simp)
      | null | bool | num | str =>
        simp only [replaceScan, hg] at hok
        rcases List.mem_cons.mp hm with hm1 | hm2
        · cases hm1
          rw [hg]; intro hc; cases hc
        · cases hr : replaceScan r rest with
          | error e => rw [hr] at hok; exact absurd hok (by simp)
          | ok out2 => exact ih hr name hm2

theorem replaceScan_error_iff {r : JSRecord} {L : List Piece} :
    (∃ e, replaceScan r L = .error e) ↔
      ∃ name, Piece.tok name ∈ L ∧ jsGet r name = .undefined := by
  constructor
  · rintro ⟨e, he⟩
    by_contra hno
    push_neg at hno
    have := replaceScan_ok_of_defined (r := r) (L := L) hno
    rw [this] at he
    cases he
  · rintro ⟨name, hm, hu⟩
    cases hr : replaceScan r L with
    | error e => exact ⟨e, rfl⟩
    | ok out => exact absurd hu (replaceScan_ok_defined hr name hm)

theorem replacePlaceholders_ok_of_defined {message : String} {r : JSRecord}
    (h : ∀ name, Piece.tok name ∈ scan message.data → jsGet r name ≠ .undefined) :
    replacePlaceholders message r = .ok (renderSpec message r) := by
  unfold replacePlaceholders renderSpec
  rw [replaceScan_ok_of_defined h]

theorem replacePlaceholders_error_iff {message : String} {r : JSRecord} :
    (∃ e, replacePlaceholders message r = .error e) ↔
      ∃ name, Piece.tok name ∈ scan message.data ∧ jsGet r name = .undefined := by
  rw [← replaceScan_error_iff]
  unfold replacePlaceholders
  constructor
  · rintro ⟨e, he⟩
    cases hr : replaceScan r (scan message.data) with
    | error e2 => exact ⟨e2, rfl⟩
    | ok out => rw [hr] at he; exact absurd he (by simp)
  · rintro ⟨e, he⟩
    rw [he]
    exact ⟨e, rfl⟩

/-! ### Lemmas about token extraction -/

theorem mem_tokenNames_iff {message : String} {name : String} :
    name ∈ tokenNames message ↔ Piece.tok name ∈ scan message.data := by
  unfold tokenNames
  rw [List.mem_filterMap]
  constructor
  · rintro ⟨p, hp, he⟩
    cases p with
    | lit c => simp at he
    | tok n => simp only [Option.some.injEq] at he; rwa [← he]
  · intro hm
    exact ⟨.tok name, hm, rfl⟩

theorem mem_foldl_insertName {name : String} :
    ∀ (l acc : List String),
      name ∈ l.foldl insertName acc ↔ name ∈ acc ∨ name ∈ l := by
  intro l
  induction l with
  | nil => intro acc; simp
  | cons a rest ih =>
    intro acc
    simp only [List.foldl_cons, ih, List.mem_cons]
    unfold insertName
    split
    · rename_i hmem
      constructor
      · rintro (h | h)
        · exact Or.inl h
        · exact Or.inr (Or.inr h)
      · rintro (h | h | h)
        · exact Or.inl h
        · rw [h]; exact Or.inl hmem
        · exact Or.inr h
    · simp only [List.mem_append, List.mem_singleton]
      tauto

theorem mem_extractPlaceholders {message name : String} :
    name ∈ extractPlaceholders message ↔
      Piece.tok name ∈ scan message.data := by
  unfold extractPlaceholders
  rw [mem_foldl_insertName, ← mem_tokenNames_iff]
  simp

/-! ### Lemmas about validation -/

theorem checkItem_none_iff {phs : List String} {it : DataItem} {i : ℕ} :
    checkItem phs it i = none ↔ itemIssue phs it = none := by
  unfold checkItem
  cases itemIssue phs it <;> simp

theorem validateItems_ok_iff {phs : List String} :
    ∀ {l : List DataItem} {i : ℕ},
      validateItems phs l i = .ok () ↔ ∀ it ∈ l, itemIssue phs it = none := by
  intro l
  induction l with
  | nil => intro i; simp [validateItems]
  | cons it rest ih =>
    intro i
    simp only [validateItems]
    cases hc : checkItem phs it i with
    | some e =>
      constructor
      · intro h; exact absurd h (by simp)
      · intro h
        have := (checkItem_none_iff (i := i)).mpr (h it (List.mem_cons_self _ _))
        rw [hc] at this; cases this
    | none =>
      simp only [ih, List.mem_cons]
      constructor
      · intro h it2 hm
        rcases hm with hm | hm
        · rw [hm]; exact checkItem_none_iff.mp hc
        · exact h it2 hm
      · intro h it2 hm
        exact h it2 (Or.inr hm)

theorem validateItems_error_spec {phs : List String} :
    ∀ {l : List DataItem} {k : ℕ} {e : ValidationError},
      validateItems phs l k = .error e →
      ∃ j it, l.get? j = some it ∧ checkItem phs it (k + j) = some e ∧
        ∀ j2 it2, j2 < j → l.get? j2 = some it2 → itemIssue phs it2 = none := by
  intro l
  induction l with
  | nil => intro k e h; simp [validateItems] at h
  | cons it rest ih =>
    intro k e h
    simp only [validateItems] at h
    cases hc : checkItem phs it k with
    | some e0 =>
      rw [hc] at h
      simp only [Except.error.injEq] at h
      refine ⟨0, it, rfl, ?_, ?_⟩
      · rw [Nat.add_zero, hc, h]
      · intro j2 it2 hlt; exact absurd hlt (by omega)
    | none =>
      rw [hc] at h
      obtain ⟨j, it2, hget, hchk, hprev⟩ := ih h
      refine ⟨j + 1, it2, by simpa using hget, ?_, ?_⟩
      · have : k + (j + 1) = k + 1 + j := by omega
        rw [this]; exact hchk
      · intro j2 it3 hlt hget2
        cases j2 with
        | zero =>
          simp only [List.get?] at hget2
          cases hget2
          exact checkItem_none_iff.mp hc
        | succ j3 =>
          exact hprev j3 it3 (by omega) (by simpa using hget2)

theorem itemIssue_none_spec {phs : List String} {it : DataItem}
    (h : itemIssue phs it = none) :
    ∃ r, it = .obj r ∧ (jsGet r "Phone").truthy = true ∧
      ∀ name ∈ phs, hasKey r name = true := by
  cases it with
  | prim v => simp [itemIssue] at h
  | obj r =>
    refine ⟨r, rfl, ?_, ?_⟩
    · simp only [itemIssue] at h
      by_contra hp
      rw [if_pos (by revert hp; cases (jsGet r "Phone").truthy <;> simp)] at h
      cases h
    · simp only [itemIssue] at h
      split at h
      · cases h
      · intro name hm
        split at h
        · cases h
        · rename_i hfind
          have := List.find?_eq_none.mp hfind name hm
          revert this
          cases hasKey r name <;> simp

theorem jsGet_defined_of_hasKey {r : JSRecord} {k : String}
    (h : hasKey r k = true) (hv : ∀ p ∈ r, p.2 ≠ JSValue.undefined) :
    jsGet r k ≠ .undefined := by
  unfold hasKey at h
  unfold jsGet
  cases hf : r.find? (fun p => p.1 == k) with
  | none => rw [hf] at h; cases h
  | some p => exact hv p (List.mem_of_find?_eq_some hf)

/-! ### Lemmas about the dispatch loop -/

theorem entryFor_number (message : String) (it : DataItem) (resp : SendResp)
    (t : ℤ) : (entryFor message it resp t).number = itemGet it "Phone" := by
  unfold entryFor
  cases replacePlaceholders message it.fields <;> rfl

theorem stepJob_results (message : String) (it : DataItem) (resp : SendResp)
    (t : ℤ) (st : BulkMessageStatus) :
    (stepJob message it resp t st).results =
      st.results ++ [entryFor message it resp t] := rfl

theorem stepJob_total (message : String) (it : DataItem) (resp : SendResp)
    (t : ℤ) (st : BulkMessageStatus) :
    (stepJob message it resp t st).progress.total = st.progress.total := rfl

theorem stepJob_status (message : String) (it : DataItem) (resp : SendResp)
    (t : ℤ) (st : BulkMessageStatus) :
    (stepJob message it resp t st).status = st.status := rfl

/-- A job record whose counters, results and percentage agree, as the
spec's progress invariant demands. -/
def progressConsistent (st : BulkMessageStatus) : Prop :=
  st.progress.sent + st.progress.failed = st.results.length ∧
  st.progress.percentage =
    jsRound (100 * ((st.progress.sent : ℚ) + (st.progress.failed : ℚ)) /
      (st.progress.total : ℚ))

theorem stepJob_progressConsistent {st : BulkMessageStatus}
    (message : String) (it : DataItem) (resp : SendResp) (t : ℤ)
    (h : progressConsistent st) :
    progressConsistent (stepJob message it resp t st) := by
  obtain ⟨h1, _⟩ := h
  unfold progressConsistent
  constructor
  · simp only [stepJob, List.length_append, List.length_cons, List.length_nil]
    by_cases hs : (entryFor message it resp t).success = true
    · rw [if_pos hs, if_pos hs]; omega
    · rw [if_neg hs, if_neg hs]; omega
  · simp only [stepJob]
    exact pct_eq _ _ _

theorem stepJob_length (message : String) (it : DataItem) (resp : SendResp)
    (t : ℤ) (st : BulkMessageStatus) :
    (stepJob message it resp t st).results.length = st.results.length + 1 := by
  rw [stepJob_results]
  simp

/-- The result entries the loop produces for the items of `l`, the item
at position `j` of `l` paired with the response and time of index
`i + j`. -/
def entriesFrom (message : String) (resp : ℕ → SendResp) (times : ℕ → ℤ) :
    List DataItem → ℕ → List ResultEntry
  | [], _ => []
  | it :: rest, i =>
    entryFor message it (resp i) (times i) ::
      entriesFrom message resp times rest (i + 1)

theorem runRecords_results (message : String) (resp : ℕ → SendResp)
    (times : ℕ → ℤ) :
    ∀ (l : List DataItem) (i : ℕ) (st : BulkMessageStatus),
      (runRecords message resp times l i st).results =
        st.results ++ entriesFrom message resp times l i := by
  intro l
  induction l with
  | nil => intro i st; simp [runRecords, entriesFrom]
  | cons it rest ih =>
    intro i st
    simp only [runRecords, entriesFrom, ih, stepJob_results]
    rw [List.append_assoc]
    rfl

theorem entriesFrom_length (message : String) (resp : ℕ → SendResp)
    (times : ℕ → ℤ) :
    ∀ (l : List DataItem) (i : ℕ),
      (entriesFrom message resp times l i).length = l.length := by
  intro l
  induction l with
  | nil => intro i; rfl
  | cons it rest ih => intro i; simp [entriesFrom, ih]

theorem entriesFrom_get? (message : String) (resp : ℕ → SendResp)
    (times : ℕ → ℤ) :
    ∀ (l : List DataItem) (i j : ℕ),
      (entriesFrom message resp times l i).get? j =
        (l.get? j).map
          (fun it => entryFor message it (resp (i + j)) (times (i + j))) := by
  intro l
  induction l with
  | nil => intro i j; simp [entriesFrom]
  | cons it rest ih =>
    intro i j
    cases j with
    | zero => simp [entriesFrom]
    | succ j2 =>
      simp only [entriesFrom, List.get?]
      rw [ih (i + 1) j2]
      have hidx : i + 1 + j2 = i + (j2 + 1) := by omega
      rw [hidx]

theorem runRecords_total (message : String) (resp : ℕ → SendResp)
    (times : ℕ → ℤ) :
    ∀ (l : List DataItem) (i : ℕ) (st : BulkMessageStatus),
      (runRecords message resp times l i st).progress.total =
        st.progress.total := by
  intro l
  induction l with
  | nil => intro i st; rfl
  | cons it rest ih => intro i st; simp [runRecords, ih, stepJob_total]

theorem runRecords_status (message : String) (resp : ℕ → SendResp)
    (times : ℕ → ℤ) :
    ∀ (l : List DataItem) (i : ℕ) (st : BulkMessageStatus),
      (runRecords message resp times l i st).status = st.status := by
  intro l
  induction l with
  | nil => intro i st; rfl
  | cons it rest ih => intro i st; simp [runRecords, ih, stepJob_status]

theorem runRecords_mem_runStates (message : String) (resp : ℕ → SendResp)
    (times : ℕ → ℤ) :
    ∀ (l : List DataItem) (i : ℕ) (st : BulkMessageStatus),
      runRecords message resp times l i st ∈
        runStates message resp times l i st := by
  intro l
  induction l with
  | nil => intro i st; simp [runRecords, runStates]
  | cons it rest ih =>
    intro i st
    simp only [runRecords, runStates]
    exact List.mem_cons_of_mem _ (ih _ _)

/-- The states observable during the loop stay consistent, keep the
initial status and total, and never hold more results than `total`. -/
theorem runStates_inv (message : String) (resp : ℕ → SendResp)
    (times : ℕ → ℤ) :
    ∀ (l : List DataItem) (i : ℕ) (st : BulkMessageStatus),
      progressConsistent st →
      st.results.length + l.length ≤ st.progress.total →
      ∀ x ∈ runStates message resp times l i st,
        progressConsistent x ∧ x.results.length ≤ x.progress.total ∧
        x.progress.total = st.progress.total ∧ x.status = st.status := by
  intro l
  induction l with
  | nil =>
    intro i st hc hlen x hx
    simp only [runStates, List.mem_singleton] at hx
    subst hx
    exact ⟨hc, by simpa using hlen, rfl, rfl⟩
  | cons it rest ih =>
    intro i st hc hlen x hx
    simp only [runStates, List.mem_cons] at hx
    rcases hx with hx | hx
    · subst hx
      refine ⟨hc, ?_, rfl, rfl⟩
      simp only [List.length_cons] at hlen
      omega
    · have hc2 := stepJob_progressConsistent message it (resp i) (times i) hc
      have hlen2 : (stepJob message it (resp i) (times i) st).results.length +
          rest.length ≤
          (stepJob message it (resp i) (times i) st).progress.total := by
        rw [stepJob_length, stepJob_total]
        simp only [List.length_cons] at hlen
        omega
      obtain ⟨g1, g2, g3, g4⟩ := ih (i + 1) _ hc2 hlen2 x hx
      exact ⟨g1, g2, by rw [g3, stepJob_total], by rw [g4, stepJob_status]⟩

theorem createdJob_progressConsistent (jobId : String) (total : ℕ)
    (t0 dur : ℤ) : progressConsistent (createdJob jobId total t0 dur) := by
  constructor
  · rfl
  · show (0 : ℤ) = jsRound (100 * (((0 : ℕ) : ℚ) + ((0 : ℕ) : ℚ)) / _)
    rw [show (100 * (((0 : ℕ) : ℚ) + ((0 : ℕ) : ℚ)) /
      ((createdJob jobId total t0 dur).progress.total : ℚ)) = 0 by norm_num]
    exact jsRound_zero.symm

theorem pct_bounds {s f t : ℕ} (ht : 1 ≤ t) (hle : s + f ≤ t) :
    0 ≤ jsRound (100 * ((s : ℚ) + (f : ℚ)) / (t : ℚ)) ∧
      jsRound (100 * ((s : ℚ) + (f : ℚ)) / (t : ℚ)) ≤ 100 := by
  have ht0 : (0 : ℚ) < (t : ℚ) := by exact_mod_cast ht
  have h0 : 0 ≤ 100 * ((s : ℚ) + (f : ℚ)) / (t : ℚ) := by positivity
  have hsf : ((s : ℚ) + (f : ℚ)) ≤ (t : ℚ) := by exact_mod_cast hle
  have h1 : 100 * ((s : ℚ) + (f : ℚ)) / (t : ℚ) ≤ 100 := by
    rw [div_le_iff₀ ht0]
    nlinarith
  exact ⟨jsRound_nonneg h0, jsRound_le_100 h1⟩

/-- Master invariant over every observable snapshot of a job's trace. -/
theorem personalizedJobTrace_inv (message : String) (data : List DataItem)
    (resp : ℕ → SendResp) (times : ℕ → ℤ) (jobId : String)
    (t0 dur tEnd : ℤ) :
    ∀ st ∈ personalizedJobTrace message data resp times jobId t0 dur tEnd,
      progressConsistent st ∧ st.results.length ≤ st.progress.total ∧
      st.progress.total = data.length ∧ st.status ≠ .failed := by
  intro st h
  simp only [personalizedJobTrace, List.mem_cons, List.mem_append,
    List.mem_singleton, List.not_mem_nil, or_false] at h
  have hcase : st = createdJob jobId data.length t0 dur ∨
      st ∈ runStates message resp times data 0
        (setRunning (createdJob jobId data.length t0 dur)) ∨
      st = processPersonalizedBulkMessages message data resp times tEnd
        (createdJob jobId data.length t0 dur) := by tauto
  have hken : progressConsistent
      (setRunning (createdJob jobId data.length t0 dur)) :=
    createdJob_progressConsistent jobId data.length t0 dur
  have hlen0 : (setRunning (createdJob jobId data.length t0 dur)).results.length
      + data.length ≤
      (setRunning (createdJob jobId data.length t0 dur)).progress.total := by
    simp [setRunning, createdJob]
  rcases hcase with h | h | h
  · subst h
    refine ⟨createdJob_progressConsistent _ _ _ _, ?_, rfl, ?_⟩
    · simp [createdJob]
    · intro hc; cases hc
  · obtain ⟨g1, g2, g3, g4⟩ :=
      runStates_inv message resp times data 0 _ hken hlen0 st h
    refine ⟨g1, g2, g3, ?_⟩
    rw [g4]
    intro hc; cases hc
  · subst h
    unfold processPersonalizedBulkMessages
    obtain ⟨g1, g2, g3, _⟩ :=
      runStates_inv message resp times data 0 _ hken hlen0 _
        (runRecords_mem_runStates message resp times data 0 _)
    refine ⟨⟨g1.1, g1.2⟩, g2, g3, ?_⟩
    intro hc; cases hc

/-! ### The claims -/

/-- C2: for every personalized bulk job, at every observable snapshot
(after creation and after each appended result),
`sent + failed = results.length ≤ total` and
`percentage = round(100 * (sent + failed) / total)`, recomputed on every
append. -/
theorem progress_invariant_at_snapshots (message : String)
    (data : List DataItem) (resp : ℕ → SendResp) (times : ℕ → ℤ)
    (jobId : String) (t0 dur tEnd : ℤ) (st : BulkMessageStatus)
    (h : st ∈ personalizedJobTrace message data resp times jobId t0 dur tEnd) :
    st.progress.sent + st.progress.failed = st.results.length ∧
    st.results.length ≤ st.progress.total ∧
    st.progress.percentage =
      jsRound (100 * ((st.progress.sent : ℚ) + (st.progress.failed : ℚ)) /
        (st.progress.total : ℚ)) := by
  obtain ⟨g1, g2, _, _⟩ :=
    personalizedJobTrace_inv message data resp times jobId t0 dur tEnd st h
  exact ⟨g1.1, g2, g1.2⟩

/-- Witness for C2 at a concrete one-record job, at the creation
snapshot. -/
theorem progress_invariant_at_snapshots_witness :
    (createdJob "job" 1 0 6).progress.sent +
      (createdJob "job" 1 0 6).progress.failed =
      (createdJob "job" 1 0 6).results.length ∧
    (createdJob "job" 1 0 6).results.length ≤
      (createdJob "job" 1 0 6).progress.total ∧
    (createdJob "job" 1 0 6).progress.percentage =
      jsRound (100 * (((createdJob "job" 1 0 6).progress.sent : ℚ) +
        ((createdJob "job" 1 0 6).progress.failed : ℚ)) /
        ((createdJob "job" 1 0 6).progress.total : ℚ)) :=
  progress_invariant_at_snapshots "m0" [.obj [("Phone", .str "1")]]
    (fun _ => ⟨true, none, none⟩) (fun _ => 0) "job" 0 6 0
    (createdJob "job" 1 0 6) (by simp [personalizedJobTrace])

/-- C3: the results of a job are appended in exact input order, one per
record: `results[i].number = records[i].Phone` for every index, and the
final results count equals the record count. -/
theorem results_preserve_input_order (message : String)
    (data : List DataItem) (resp : ℕ → SendResp) (times : ℕ → ℤ)
    (jobId : String) (t0 dur tEnd : ℤ) (i : ℕ) :
    ((processPersonalizedBulkMessages message data resp times tEnd
        (createdJob jobId data.length t0 dur)).results.get? i).map
      ResultEntry.number =
      (data.get? i).map (fun it => itemGet it "Phone") ∧
    (processPersonalizedBulkMessages message data resp times tEnd
        (createdJob jobId data.length t0 dur)).results.length =
      data.length := by
  unfold processPersonalizedBulkMessages finishJob
  constructor
  · show ((runRecords message resp times data 0 _).results.get? i).map
      ResultEntry.number = _
    rw [runRecords_results]
    show ((entriesFrom message resp times data 0).get? i).map
      ResultEntry.number = _
    rw [entriesFrom_get?]
    cases data.get? i with
    | none => rfl
    | some it => simp [entryFor_number]
  · show (runRecords message resp times data 0 _).results.length = _
    rw [runRecords_results]
    show (entriesFrom message resp times data 0).length = _
    rw [entriesFrom_length]

/-- C4: for every job and every sequence of per-record send responses,
the dispatch loop appends exactly `total` results and then marks the job
`completed` with `completedAt` assigned, and no observable snapshot ever
has status `failed`. -/
theorem dispatch_always_completes (message : String) (data : List DataItem)
    (resp : ℕ → SendResp) (times : ℕ → ℤ) (jobId : String)
    (t0 dur tEnd : ℤ) :
    (processPersonalizedBulkMessages message data resp times tEnd
        (createdJob jobId data.length t0 dur)).status = .completed ∧
    (processPersonalizedBulkMessages message data resp times tEnd
        (createdJob jobId data.length t0 dur)).completedAt = some tEnd ∧
    (processPersonalizedBulkMessages message data resp times tEnd
        (createdJob jobId data.length t0 dur)).results.length = data.length ∧
    ∀ st ∈ personalizedJobTrace message data resp times jobId t0 dur tEnd,
      st.status ≠ .failed := by
  refine ⟨rfl, rfl, ?_, ?_⟩
  · unfold processPersonalizedBulkMessages finishJob
    show (runRecords message resp times data 0 _).results.length = _
    rw [runRecords_results]
    show (entriesFrom message resp times data 0).length = _
    rw [entriesFrom_length]
  · intro st h
    exact (personalizedJobTrace_inv message data resp times jobId
      t0 dur tEnd st h).2.2.2

/-- C10: a validated submission always has at least one record, so the
per-append percentage computation never divides by zero and every
observable snapshot's percentage is an integer between 0 and 100. -/
theorem percentage_always_well_defined (message : String)
    (data : List DataItem) (resp : ℕ → SendResp) (times : ℕ → ℤ)
    (jobId : String) (t0 dur tEnd : ℤ)
    (h : validatePersonalizedData data message = .ok ()) :
    1 ≤ data.length ∧
    ∀ st ∈ personalizedJobTrace message data resp times jobId t0 dur tEnd,
      st.progress.total = data.length ∧
      0 ≤ st.progress.percentage ∧ st.progress.percentage ≤ 100 := by
  have hne : 1 ≤ data.length := by
    unfold validatePersonalizedData at h
    by_cases he : data.isEmpty
    · rw [if_pos he] at h; cases h
    · cases data with
      | nil => simp at he
      | cons a l => simp only [List.length_cons]; omega
  refine ⟨hne, ?_⟩
  intro st hst
  obtain ⟨⟨g11, g12⟩, g2, g3, _⟩ :=
    personalizedJobTrace_inv message data resp times jobId t0 dur tEnd st hst
  refine ⟨g3, ?_, ?_⟩
  · rw [g12]
    exact (pct_bounds (by omega) (by omega)).1
  · rw [g12]
    exact (pct_bounds (by omega) (by omega)).2

/-- Witness for C10 at a concrete validated one-record job. -/
theorem percentage_always_well_defined_witness :
    1 ≤ ([DataItem.obj [("Phone", JSValue.str "1")]] : List DataItem).length ∧
    ∀ st ∈ personalizedJobTrace "hello"
      [DataItem.obj [("Phone", JSValue.str "1")]]
      (fun _ => ⟨true, none, none⟩) (fun _ => 0) "job" 0 6 0,
      st.progress.total =
        ([DataItem.obj [("Phone", JSValue.str "1")]] : List DataItem).length ∧
      0 ≤ st.progress.percentage ∧ st.progress.percentage ≤ 100 :=
  percentage_always_well_defined "hello"
    [DataItem.obj [("Phone", JSValue.str "1")]]
    (fun _ => ⟨true, none, none⟩) (fun _ => 0) "job" 0 6 0 (by decide)

/-- C1 (counterexample): a record can hold every token of the template as
a key and still make `replacePlaceholders` throw, because a key bound to
`undefined` passes the key-presence premise while `data[name]` is
`undefined`. -/
theorem render_with_all_keys_present_counterexample :
    (∀ name ∈ extractPlaceholders "\x7b\x7bX\x7d\x7d",
      hasKey [("X", JSValue.undefined)] name = true) ∧
    replacePlaceholders "\x7b\x7bX\x7d\x7d" [("X", JSValue.undefined)] =
      .error (placeholderErrMsg "X") :=
  ⟨by decide, by decide⟩

/-- C1 (amended): for every template and record in which each token
resolves to a defined (non-`undefined`) value, `replacePlaceholders`
returns the template with every token occurrence replaced by the
stringified value and every other character unchanged (the spec-worded
`renderSpec`); determinism is definitional for the pure function. -/
theorem render_replaces_defined_tokens (message : String) (r : JSRecord)
    (h : ∀ name ∈ extractPlaceholders message, jsGet r name ≠ JSValue.undefined) :
    replacePlaceholders message r = .ok (renderSpec message r) := by
  apply replacePlaceholders_ok_of_defined
  intro name hm
  exact h name (mem_extractPlaceholders.mpr hm)

/-- Witness for C1 (amended): a concrete rendering. -/
theorem render_replaces_defined_tokens_witness :
    replacePlaceholders "Hello \x7b\x7bName\x7d\x7d!"
      [("Name", JSValue.str "Ahmed")] = .ok "Hello Ahmed!" := by
  rw [render_replaces_defined_tokens "Hello \x7b\x7bName\x7d\x7d!"
    [("Name", JSValue.str "Ahmed")] (by decide)]
  decide

/-- C7 (counterexample): a (template, records) pair the validator accepts
on which rendering still throws: the record has the token as a key (so
the `in`-based validation passes) but bound to `undefined` (so the
render-time lookup is `undefined`). -/
theorem validated_render_failure_counterexample :
    validatePersonalizedData
      [.obj [("Phone", JSValue.str "1"), ("X", JSValue.undefined)]]
      "\x7b\x7bX\x7d\x7d" = .ok () ∧
    replacePlaceholders "\x7b\x7bX\x7d\x7d"
      [("Phone", JSValue.str "1"), ("X", JSValue.undefined)] =
      .error (placeholderErrMsg "X") :=
  ⟨by decide, by decide⟩

/-- C7 (amended): `replacePlaceholders` raises its missing-placeholder
error exactly when some referenced token's lookup is `undefined` (key
absent, or present and bound to `undefined`); on validator-approved data
whose values are all defined — e.g. anything parsed from JSON — rendering
always succeeds. -/
theorem render_error_characterization :
    (∀ (message : String) (r : JSRecord),
      (∃ e, replacePlaceholders message r = .error e) ↔
        ∃ name ∈ extractPlaceholders message, jsGet r name = JSValue.undefined) ∧
    (∀ (message : String) (data : List DataItem),
      validatePersonalizedData data message = .ok () →
      ∀ it ∈ data, (∀ p ∈ it.fields, p.2 ≠ JSValue.undefined) →
        replacePlaceholders message it.fields =
          .ok (renderSpec message it.fields)) := by
  constructor
  · intro message r
    rw [replacePlaceholders_error_iff]
    constructor
    · rintro ⟨name, hm, hu⟩
      exact ⟨name, mem_extractPlaceholders.mpr hm, hu⟩
    · rintro ⟨name, hm, hu⟩
      exact ⟨name, mem_extractPlaceholders.mp hm, hu⟩
  · intro message data hv it hit hdef
    unfold validatePersonalizedData at hv
    by_cases he : data.isEmpty
    · rw [if_pos he] at hv; cases hv
    · rw [if_neg he] at hv
      have hnone := validateItems_ok_iff.mp hv it hit
      obtain ⟨r, hr, _, hkeys⟩ := itemIssue_none_spec hnone
      apply replacePlaceholders_ok_of_defined
      intro name hm
      have hph : name ∈ extractPlaceholders message :=
        mem_extractPlaceholders.mpr hm
      have hk := hkeys name hph
      subst hr
      exact jsGet_defined_of_hasKey hk hdef

/-- Witness for C7 (amended) at concrete inputs. -/
theorem render_error_characterization_witness :
    ((∃ e, replacePlaceholders "\x7b\x7bX\x7d\x7d"
        ([] : JSRecord) = .error e) ↔
      ∃ name ∈ extractPlaceholders "\x7b\x7bX\x7d\x7d",
        jsGet ([] : JSRecord) name = JSValue.undefined) ∧
    replacePlaceholders "hi"
      (DataItem.obj [("Phone", JSValue.str "1")]).fields =
      .ok (renderSpec "hi" (DataItem.obj [("Phone", JSValue.str "1")]).fields) :=
  ⟨render_error_characterization.1 "\x7b\x7bX\x7d\x7d" [],
   render_error_characterization.2 "hi"
     [DataItem.obj [("Phone", JSValue.str "1")]] (by decide)
     (DataItem.obj [("Phone", JSValue.str "1")]) (by decide) (by decide)⟩

/-- C6 (counterexample): the validator does not run all `Phone` checks
before any placeholder check: with record 0 having `Phone` but missing
token `X` and record 1 missing `Phone`, the reported error is the
placeholder error at index 0, not the phone error at index 1. -/
theorem validation_order_counterexample :
    validatePersonalizedData
      [.obj [("Phone", JSValue.str "1")], .obj []] "\x7b\x7bX\x7d\x7d" =
      .error (.missingPlaceholder "X" 0) ∧
    validatePersonalizedData
      [.obj [("Phone", JSValue.str "1")], .obj []] "\x7b\x7bX\x7d\x7d" ≠
      .error (.missingPhone 1) :=
  ⟨by decide, by decide⟩

/-- C6 (amended): validation is fail-fast over a single pass: the error
comes from the first record (in index order) failing any of its own
checks — object-ness, then `Phone`, then each template token in
first-occurrence order — and every earlier record passes all three. -/
theorem validation_first_failing_record (data : List DataItem)
    (message : String) (e : ValidationError) (hne : data ≠ [])
    (h : validatePersonalizedData data message = .error e) :
    ∃ j it, data.get? j = some it ∧
      checkItem (extractPlaceholders message) it j = some e ∧
      ∀ j2 it2, j2 < j → data.get? j2 = some it2 →
        itemIssue (extractPlaceholders message) it2 = none := by
  unfold validatePersonalizedData at h
  rw [if_neg (by cases data with
    | nil => exact absurd rfl hne
    | cons a l => simp)] at h
  obtain ⟨j, it, hg, hc, hp⟩ := validateItems_error_spec h
  exact ⟨j, it, hg, by simpa using hc, hp⟩

/-- Witness for C6 (amended) at a concrete failing input. -/
theorem validation_first_failing_record_witness :
    ∃ j it, ([DataItem.prim JSValue.null] : List DataItem).get? j = some it ∧
      checkItem (extractPlaceholders "") it j =
        some (ValidationError.invalidItem 0) ∧
      ∀ j2 it2, j2 < j →
        ([DataItem.prim JSValue.null] : List DataItem).get? j2 = some it2 →
        itemIssue (extractPlaceholders "") it2 = none :=
  validation_first_failing_record [DataItem.prim JSValue.null] ""
    (ValidationError.invalidItem 0) (by decide) (by decide)

/-- C5 (counterexample): a validator-accepted two-record job whose first
record's rendering throws produces no sleep event at all between the two
appends: the pacing step is skipped on the `catch` path. -/
theorem delay_skipped_on_render_error_counterexample :
    validatePersonalizedData
      [.obj [("Phone", JSValue.str "1"), ("X", JSValue.undefined)],
       .obj [("Phone", JSValue.str "2"), ("X", JSValue.str "a")]]
      "\x7b\x7bX\x7d\x7d" = .ok () ∧
    runEvents "\x7b\x7bX\x7d\x7d" { min := 2, max := 9 } (fun _ => 0) 2
      [.obj [("Phone", JSValue.str "1"), ("X", JSValue.undefined)],
       .obj [("Phone", JSValue.str "2"), ("X", JSValue.str "a")]] 0 =
      [.appended 0, .appended 1] :=
  ⟨by decide, by decide⟩

/-- C5 (amended): the drawn delay is an integer within
`[delayRange.min, delayRange.max]` for any `Math.random()` draw in
`[0, 1)`, and the sleep follows the append for every non-final record
whose `try` block completes (rendering succeeded; `sendTextMessage`
resolves without throwing) — but when rendering throws, the iteration
appends its failure result and advances immediately with no sleep. -/
theorem pacing_delay_bounds_and_occurrence :
    (∀ (lo hi : ℤ) (r : ℚ), lo ≤ hi → 0 ≤ r → r < 1 →
      lo ≤ getRandomDelay lo hi r ∧ getRandomDelay lo hi r ≤ hi) ∧
    (∀ (message : String) (it : DataItem) (i n : ℕ) (dr : DelayRange)
      (r : ℚ) (pm : String), i + 1 < n →
      replacePlaceholders message it.fields = .ok pm →
      iterEvents message it i n dr r =
        [.appended i, .slept (getRandomDelay dr.min dr.max r)]) ∧
    (∀ (message : String) (it : DataItem) (i n : ℕ) (dr : DelayRange)
      (r : ℚ) (e : String),
      replacePlaceholders message it.fields = .error e →
      iterEvents message it i n dr r = [.appended i]) := by
  refine ⟨?_, ?_, ?_⟩
  · intro lo hi r hlh h0 h1
    unfold getRandomDelay
    have hk : (0 : ℚ) < (hi : ℚ) - (lo : ℚ) + 1 := by
      have : (lo : ℚ) ≤ (hi : ℚ) := by exact_mod_cast hlh
      linarith
    constructor
    · have h2 : 0 ≤ r * ((hi : ℚ) - (lo : ℚ) + 1) := mul_nonneg h0 hk.le
      have h3 : 0 ≤ ⌊r * ((hi : ℚ) - (lo : ℚ) + 1)⌋ := Int.floor_nonneg.mpr h2
      omega
    · have h2 : r * ((hi : ℚ) - (lo : ℚ) + 1) < (hi : ℚ) - (lo : ℚ) + 1 :=
        mul_lt_of_lt_one_left hk h1
      have h3 : ⌊r * ((hi : ℚ) - (lo : ℚ) + 1)⌋ < hi - lo + 1 :=
        Int.floor_lt.mpr (by push_cast; linarith)
      omega
  · intro message it i n dr r pm hlt hok
    unfold iterEvents
    rw [hok, if_pos hlt]
  · intro message it i n dr r e herr
    unfold iterEvents
    rw [herr]

/-- Witness for C5 (amended) at concrete inputs. -/
theorem pacing_delay_bounds_witness :
    (2 ≤ getRandomDelay 2 9 0 ∧ getRandomDelay 2 9 0 ≤ 9) ∧
    iterEvents "hi" (DataItem.obj [("Phone", JSValue.str "1")]) 0 2
      { min := 2, max := 9 } 0 =
      [.appended 0, .slept (getRandomDelay 2 9 0)] ∧
    iterEvents "\x7b\x7bX\x7d\x7d" (DataItem.obj []) 0 2
      { min := 2, max := 9 } 0 = [.appended 0] :=
  ⟨pacing_delay_bounds_and_occurrence.1 2 9 0 (by decide) (by norm_num)
      (by norm_num),
   pacing_delay_bounds_and_occurrence.2.1 "hi"
     (DataItem.obj [("Phone", JSValue.str "1")]) 0 2 { min := 2, max := 9 } 0
     "hi" (by decide) (by decide),
   pacing_delay_bounds_and_occurrence.2.2 "\x7b\x7bX\x7d\x7d"
     (DataItem.obj []) 0 2 { min := 2, max := 9 } 0
     (placeholderErrMsg "X") (by decide)⟩

/-- C8: when the session is missing, not ready, or validation fails,
the submission call returns `success = false` with an error message and
leaves the job registry exactly unchanged. -/
theorem failed_submission_leaves_registry_unchanged
    (sessions : List (String × SessionStatus))
    (bulkJobs : List (String × BulkMessageStatus)) (sessionId : String)
    (req : PersonalizedBulkMessageRequest) (freshJobId : String) (now : ℤ)
    (h : sessionsGet sessions sessionId = none ∨
      (∃ s, sessionsGet sessions sessionId = some s ∧ s ≠ .ready) ∨
      ∃ e, validatePersonalizedData req.data req.message = .error e) :
    (sendPersonalizedBulkTextMessage sessions bulkJobs sessionId req
      freshJobId now).1.success = false ∧
    (sendPersonalizedBulkTextMessage sessions bulkJobs sessionId req
      freshJobId now).1.error ≠ none ∧
    (sendPersonalizedBulkTextMessage sessions bulkJobs sessionId req
      freshJobId now).2 = bulkJobs := by
  unfold sendPersonalizedBulkTextMessage
  split
  · simp [failureResponse]
  · rename_i stt heq
    split
    · simp [failureResponse]
    · rename_i hstt
      have hready : stt = SessionStatus.ready := by
        by_contra hc; exact hstt hc
      split
      · simp [failureResponse]
      · rename_i u hveq
        exfalso
        rcases h with h | ⟨s2, hs2, hne⟩ | ⟨e, hve⟩
        · rw [heq] at h; cases h
        · rw [heq] at hs2
          simp only [Option.some.injEq] at hs2
          rw [← hs2] at hne
          exact hne hready
        · rw [hve] at hveq; cases hveq

/-- Witness for C8 at a concrete missing-session call. -/
theorem failed_submission_witness :
    (sendPersonalizedBulkTextMessage [] [] "s"
      { message := "m", data := [], delayRange := none } "j" 0).1.success =
      false ∧
    (sendPersonalizedBulkTextMessage [] [] "s"
      { message := "m", data := [], delayRange := none } "j" 0).1.error ≠
      none ∧
    (sendPersonalizedBulkTextMessage [] [] "s"
      { message := "m", data := [], delayRange := none } "j" 0).2 =
      ([] : List (String × BulkMessageStatus)) :=
  failed_submission_leaves_registry_unchanged [] [] "s"
    { message := "m", data := [], delayRange := none } "j" 0
    (Or.inl (by decide))

/-- C9: a successful submission with `n` records and delay range
`[lo, hi]` returns `estimatedDuration = ceil(n * (lo + hi) / 2)` seconds
and inserts a `pending` job with zeroed counters, `total = n`, empty
results, `startedAt = now`, and
`estimatedCompletion = now + estimatedDuration` seconds (milliseconds in
the clock encoding). -/
theorem successful_submission_creates_pending_job
    (sessions : List (String × SessionStatus))
    (bulkJobs : List (String × BulkMessageStatus)) (sessionId : String)
    (req : PersonalizedBulkMessageRequest) (freshJobId : String) (now : ℤ)
    (hs : sessionsGet sessions sessionId = some .ready)
    (hv : validatePersonalizedData req.data req.message = .ok ()) :
    (sendPersonalizedBulkTextMessage sessions bulkJobs sessionId req
      freshJobId now).1 =
      { success := true
        jobId := freshJobId
        totalNumbers := req.data.length
        message := req.message
        estimatedDuration := some
          ⌈((req.data.length : ℚ) *
            (((req.delayRange.getD { min := 2, max := 9 }).min : ℚ) +
              ((req.delayRange.getD { min := 2, max := 9 }).max : ℚ))) / 2⌉
        error := none } ∧
    (sendPersonalizedBulkTextMessage sessions bulkJobs sessionId req
      freshJobId now).2 =
      bulkJobs ++ [(freshJobId,
        { jobId := freshJobId
          status := .pending
          progress :=
            { sent := 0, failed := 0, total := req.data.length
              percentage := 0 }
          results := []
          startedAt := now
          completedAt := none
          estimatedCompletion := now +
            ⌈((req.data.length : ℚ) *
              (((req.delayRange.getD { min := 2, max := 9 }).min : ℚ) +
                ((req.delayRange.getD { min := 2, max := 9 }).max : ℚ))) / 2⌉
              * 1000 })] := by
  have hdur : estDuration req.data.length
      (req.delayRange.getD { min := 2, max := 9 }) =
      ⌈((req.data.length : ℚ) *
        (((req.delayRange.getD { min := 2, max := 9 }).min : ℚ) +
          ((req.delayRange.getD { min := 2, max := 9 }).max : ℚ))) / 2⌉ := by
    unfold estDuration
    exact congrArg Int.ceil (mul_div_assoc _ _ _).symm
  unfold sendPersonalizedBulkTextMessage
  split
  · rename_i heq
    rw [hs] at heq; cases heq
  · rename_i stt heq
    rw [hs] at heq
    simp only [Option.some.injEq] at heq
    subst heq
    rw [if_neg (by simp)]
    split
    · rename_i e hveq
      rw [hv] at hveq; cases hveq
    · simp [hdur, createdJob]

/-- Witness for C9 at a concrete ready session and one-record request. -/
theorem successful_submission_witness :
    (sendPersonalizedBulkTextMessage [("s", SessionStatus.ready)] [] "s"
      { message := "hi", data := [DataItem.obj [("Phone", JSValue.str "1")]]
        delayRange := none } "j" 0).1 =
      { success := true
        jobId := "j"
        totalNumbers := 1
        message := "hi"
        estimatedDuration := some
          ⌈(((([DataItem.obj [("Phone", JSValue.str "1")]] :
              List DataItem).length : ℚ)) *
            ((((none : Option DelayRange).getD { min := 2, max := 9 }).min :
              ℚ) +
              (((none : Option DelayRange).getD { min := 2, max := 9 }).max :
                ℚ))) / 2⌉
        error := none } ∧
    (sendPersonalizedBulkTextMessage [("s", SessionStatus.ready)] [] "s"
      { message := "hi", data := [DataItem.obj [("Phone", JSValue.str "1")]]
        delayRange := none } "j" 0).2 =
      ([] : List (String × BulkMessageStatus)) ++ [("j",
        { jobId := "j"
          status := .pending
          progress := { sent := 0, failed := 0, total := 1, percentage := 0 }
          results := []
          startedAt := 0
          completedAt := none
          estimatedCompletion := 0 +
            ⌈(((([DataItem.obj [("Phone", JSValue.str "1")]] :
                List DataItem).length : ℚ)) *
              ((((none : Option DelayRange).getD { min := 2, max := 9 }).min :
                ℚ) +
                (((none : Option DelayRange).getD { min := 2, max := 9 }).max :
                  ℚ))) / 2⌉ * 1000 })] :=
  successful_submission_creates_pending_job [("s", SessionStatus.ready)] []
    "s" { message := "hi", data := [DataItem.obj [("Phone", JSValue.str "1")]]
          delayRange := none } "j" 0 (by decide) (by decide)

end WhatsAppService

